import Mathlib

/-
Verification of the Tetris game engine (src/tetris.py): board geometry,
piece rotation with wall kicks, line clearing, locking, scoring and
level progression.  The Python code is shallowly embedded: the locked-cell
dictionary becomes an association list with dictionary operations
`dget` / `dset` / `ddel`, `for` loops become folds over the explicit index
ranges the source iterates, and the random next-piece choice is passed in
as an explicit argument.
-/

set_option linter.dupNamespace false
set_option maxRecDepth 8000

namespace Tetris

/-- RGB color triple, as in the source's `(R,G,B)` tuples. -/
abbrev Color := Nat × Nat × Nat

/-- A rotation state: a row-major boolean occupancy matrix
(`'1'` characters of the source's shape strings become `true`). -/
abbrev Shape := List (List Bool)

/-- The locked-cell dictionary `(x, y) -> color`, embedded as an
association list with unique keys. -/
abbrev Locked := List ((Int × Int) × Color)

/-- Dictionary read: `locked[k]` / `k in locked`. -/
def dget (l : Locked) (k : Int × Int) : Option Color :=
  (l.find? (fun e => decide (e.1 = k))).map (fun e => e.2)

/-- Membership test `k in locked`. -/
def dmem (l : Locked) (k : Int × Int) : Bool :=
  (dget l k).isSome

/-- Dictionary write `locked[k] = v`: replace the entry in place when the
key is present, append otherwise. -/
def dset (l : Locked) (k : Int × Int) (v : Color) : Locked :=
  if dmem l k then l.map (fun e => if e.1 = k then (k, v) else e)
  else l ++ [(k, v)]

/-- Dictionary delete `del locked[k]`. -/
def ddel (l : Locked) (k : Int × Int) : Locked :=
  l.filter (fun e => decide (¬ e.1 = k))

def COLUMNS : Int := 10
def ROWS : Int := 20

/-- The list `[0, 1, ..., n-1]` as integers (Python `range(n)`). -/
def intRange (n : Nat) : List Int := (List.range n).map (fun (i : Nat) => (i : Int))

/-- Python `range(COLUMNS)`. -/
def colRange : List Int := intRange 10

/-- Python `range(ROWS)`. -/
def rowRange : List Int := intRange 20

/-- Occupied cell marker, the character `'1'`. -/
def X : Bool := true

/-- Empty cell marker, the character `'0'`. -/
def E : Bool := false

inductive PieceType where
  | I | J | L | O | S | T | Z
deriving DecidableEq

/-- The `TETROMINOES` table of rotation states, one list entry per
string row of the source. -/
def TETROMINOES : PieceType → List Shape
  | .I => [ [[E,E,E,E],[X,X,X,X],[E,E,E,E],[E,E,E,E]],
            [[E,E,X,E],[E,E,X,E],[E,E,X,E],[E,E,X,E]] ]
  | .J => [ [[X,E,E],[X,X,X],[E,E,E]],
            [[E,X,X],[E,X,E],[E,X,E]],
            [[E,E,E],[X,X,X],[E,E,X]],
            [[E,X,E],[E,X,E],[X,X,E]] ]
  | .L => [ [[E,E,X],[X,X,X],[E,E,E]],
            [[E,X,E],[E,X,E],[E,X,X]],
            [[E,E,E],[X,X,X],[X,E,E]],
            [[X,X,E],[E,X,E],[E,X,E]] ]
  | .O => [ [[X,X],[X,X]] ]
  | .S => [ [[E,X,X],[X,X,E],[E,E,E]],
            [[E,X,E],[E,X,X],[E,E,X]] ]
  | .T => [ [[E,X,E],[X,X,X],[E,E,E]],
            [[E,X,E],[E,X,X],[E,X,E]],
            [[E,E,E],[X,X,X],[E,X,E]],
            [[E,X,E],[X,X,E],[E,X,E]] ]
  | .Z => [ [[X,X,E],[E,X,X],[E,E,E]],
            [[E,E,X],[E,X,X],[E,X,E]] ]

def PIECE_KEYS : List PieceType := [.I, .J, .L, .O, .S, .T, .Z]

def COLORS : List Color :=
  [ (0,240,240), (0,0,240), (240,160,0), (240,240,0),
    (0,240,0), (160,0,240), (240,0,0) ]

/-- `shape_cells(shape, offset_x, offset_y)`: the `(x, y)` positions of the
occupied cells of a shape state, offset by the anchor.  Rows are listed
top to bottom, columns left to right, exactly as the Python generator
yields them. -/
def shape_cells (shape : Shape) (offset_x offset_y : Int) : List (Int × Int) :=
  (shape.enum.map (fun yrow =>
    yrow.2.enum.filterMap (fun xch =>
      if xch.2 then some (offset_x + (xch.1 : Int), offset_y + (yrow.1 : Int))
      else none))).flatten

/-- `make_grid(locked_positions)`: the rows × columns grid holding the
locked colors at in-bound positions and `None` elsewhere. -/
def make_grid (locked : Locked) : Int → Int → Option Color :=
  fun y x =>
    if 0 ≤ y ∧ y < ROWS ∧ 0 ≤ x ∧ x < COLUMNS then dget locked (x, y) else none

/-- `valid_space(shape, offset_x, offset_y, locked)`. -/
def valid_space (shape : Shape) (offset_x offset_y : Int) (locked : Locked) : Bool :=
  (shape_cells shape offset_x offset_y).all (fun c =>
    if c.1 < 0 ∨ COLUMNS ≤ c.1 ∨ ROWS ≤ c.2 then false
    else if 0 ≤ c.2 ∧ dmem locked c then false
    else true)

/-- A row is full when every column of the grid row holds a color
(the `all(...)` test of `clear_lines`). -/
def rowFull (grid : Int → Int → Option Color) (y : Int) : Bool :=
  colRange.all (fun x => (grid y x).isSome)

/-- `lines_to_clear`: the full row indices, in ascending order. -/
def linesToClear (grid : Int → Int → Option Color) : List Int :=
  rowRange.filter (fun y => rowFull grid y)

/-- Python `max` over a nonempty integer list. -/
def maxI (l : List Int) : Int := l.foldl max (l.headD 0)

/-- `sum(1 for cleared in lines_to_clear if y < cleared)`. -/
def shiftFor (lines : List Int) (y : Int) : Nat :=
  (lines.filter (fun c => y < c)).length

/-- First mutation stage of `clear_lines` ("Remove from locked"): delete
every locked cell lying in a full row. -/
def deleteFullRows (lines : List Int) (locked : Locked) : Locked :=
  lines.reverse.foldl (fun l row =>
    colRange.foldl (fun l x =>
      if dmem l (x, row) then ddel l (x, row) else l) l) locked

/-- Body of the shift loop of `clear_lines` for a single row `y`: when the
shift amount is positive, `pop` each cell of row `y` and re-insert it
`shift` rows further down. -/
def shiftStep (lines : List Int) (l : Locked) (y : Int) : Locked :=
  let shift := shiftFor lines y
  if 0 < shift then
    colRange.foldl (fun l x =>
      match dget l (x, y) with
      | some v => dset (ddel l (x, y)) (x, y + (shift : Int)) v
      | none => l) l
  else l

/-- Second mutation stage of `clear_lines` ("Shift down"): walk the rows
above the lowest cleared row bottom-up and move each remaining cell down
by the number of cleared rows below it. -/
def shiftRowsDown (lines : List Int) (m : Int) (locked1 : Locked) : Locked :=
  ((rowRange.filter (fun r => r < m)).reverse).foldl (shiftStep lines) locked1

/-- `clear_lines(grid, locked)`: remove full rows, shift the remaining
cells down, and return the number of lines cleared together with the
updated locked-cell dictionary. -/
def clear_lines (grid : Int → Int → Option Color) (locked : Locked) : Nat × Locked :=
  let lines := linesToClear grid
  if lines.isEmpty then (0, locked)
  else (lines.length, shiftRowsDown lines (maxI lines) (deleteFullRows lines locked))

structure Piece where
  type : PieceType
  rotations : List Shape
  rotation : Nat
  shape : Shape
  x : Int
  y : Int
  color : Color
deriving DecidableEq

/-- `Piece.__init__(type_key)`. -/
def Piece.init (type_key : PieceType) : Piece :=
  let rotations := TETROMINOES type_key
  let shape := rotations.getD 0 []
  { type := type_key
    rotations := rotations
    rotation := 0
    shape := shape
    x := COLUMNS / 2 - ((shape.headD []).length : Int) / 2
    y := -((shape.length : Int))
    color := COLORS.getD (PIECE_KEYS.indexOf type_key) (0, 0, 0) }

/-- The wall-kick offsets `(-1, 1, -2, 2)` tried by the rotation methods. -/
def KICKS : List Int := [-1, 1, -2, 2]

/-- `Piece.rotate(locked)`: advance the rotation index clockwise; if the
new state is invalid at the anchor, try the wall kicks in order; on total
failure revert and report `False`. -/
def Piece.rotate (p : Piece) (locked : Locked) : Piece × Bool :=
  let old := p.rotation
  let newRot := (p.rotation + 1) % p.rotations.length
  let newShape := p.rotations.getD newRot []
  if valid_space newShape p.x p.y locked then
    ({ p with rotation := newRot, shape := newShape }, true)
  else
    match KICKS.find? (fun dx => valid_space newShape (p.x + dx) p.y locked) with
    | some dx => ({ p with rotation := newRot, shape := newShape, x := p.x + dx }, true)
    | none => ({ p with rotation := old, shape := p.rotations.getD old [] }, false)

/-- `Piece.rotate_ccw(locked)`; the index uses Python's non-negative `%`,
which is `Int.emod`. -/
def Piece.rotate_ccw (p : Piece) (locked : Locked) : Piece × Bool :=
  let old := p.rotation
  let newRot := (((p.rotation : Int) - 1).emod (p.rotations.length : Int)).toNat
  let newShape := p.rotations.getD newRot []
  if valid_space newShape p.x p.y locked then
    ({ p with rotation := newRot, shape := newShape }, true)
  else
    match KICKS.find? (fun dx => valid_space newShape (p.x + dx) p.y locked) with
    | some dx => ({ p with rotation := newRot, shape := newShape, x := p.x + dx }, true)
    | none => ({ p with rotation := old, shape := p.rotations.getD old [] }, false)

/-- The game-engine state mutated by `Tetris.lock_piece` (rendering and
timer fields are external collaborators and omitted; `fall_speed` is kept
as an exact rational in place of the source's float). -/
structure Tetris where
  locked : Locked
  current : Piece
  next_piece : Piece
  score : Nat
  lines : Nat
  level : Nat
  fall_speed : ℚ
  game_over : Bool

/-- The `score_table` dictionary with its `.get(cleared, 0)` default. -/
def score_table (cleared : Nat) : Nat :=
  match cleared with
  | 1 => 40
  | 2 => 100
  | 3 => 300
  | 4 => 1200
  | _ => 0

/-- The cell-writing loop at the top of `lock_piece`: walk the occupied
cells of the current piece; a cell above the top sets the game-over flag,
any other cell is written into the locked dictionary. -/
def lockCells (st : Tetris) : Bool × Locked :=
  (shape_cells st.current.shape st.current.x st.current.y).foldl
    (fun acc c =>
      if c.2 < 0 then (true, acc.2)
      else (acc.1, dset acc.2 c st.current.color))
    (st.game_over, st.locked)

/-- `Tetris.lock_piece()`, with the randomly chosen replacement for the
next-piece slot passed in explicitly. -/
def lock_piece (st : Tetris) (newPiece : Piece) : Tetris :=
  let wr := lockCells st
  let grid := make_grid wr.2
  let res := clear_lines grid wr.2
  if 0 < res.1 then
    { locked := res.2
      current := st.next_piece
      next_piece := newPiece
      score := st.score + score_table res.1 * st.level
      lines := st.lines + res.1
      level := (st.lines + res.1) / 10 + 1
      fall_speed := max (1/20 : ℚ) (3/5 - (((st.lines + res.1) / 10 + 1 : Nat) - 1 : ℚ) * (1/20))
      game_over := wr.1 }
  else
    { locked := res.2
      current := st.next_piece
      next_piece := newPiece
      score := st.score
      lines := st.lines
      level := st.level
      fall_speed := st.fall_speed
      game_over := wr.1 }

/-- Every key of the locked dictionary lies on the board: the data-model
invariant of §3 of the specification. -/
def InBounds (l : Locked) : Prop :=
  ∀ e ∈ l, 0 ≤ e.1.1 ∧ e.1.1 < COLUMNS ∧ 0 ≤ e.1.2 ∧ e.1.2 < ROWS

instance (l : Locked) : Decidable (InBounds l) := by
  unfold InBounds
  infer_instance

/-- The empty board. -/
def emptyLocked : Locked := []

/-- A board with every visible cell occupied. -/
def fullLocked : Locked :=
  (List.range 20).flatMap (fun (y : Nat) =>
    (List.range 10).map (fun (x : Nat) => (((x : Int), (y : Int)), ((1,1,1) : Color))))

/-- Proof device: search the rows `k, k+1, ..., k+cnt-1` (ascending) for
the first row holding a cell of column `a` in `l1` that the shift stage
sends to row `b`. -/
def srcFor (lines : List Int) (l1 : Locked) (k : Int) (cnt : Nat) (a b : Int) : Option Int :=
  match cnt with
  | 0 => none
  | n + 1 =>
    if k + (shiftFor lines k : Int) = b ∧ (dget l1 (a, k)).isSome then some k
    else srcFor lines l1 (k + 1) n a b

/-- Proof device: the intended contents of the board at `(a, b)` after the
shift stage has processed all rows at index `≥ k` and `< m`. -/
def clearedView (lines : List Int) (m : Int) (l1 : Locked) (k : Int) (a b : Int) : Option Color :=
  if b < k then dget l1 (a, b)
  else
    match srcFor lines l1 k (m - k).toNat a b with
    | some r => dget l1 (a, r)
    | none => if b < m then none else dget l1 (a, b)

/-- `n`-fold clockwise rotation of a piece. -/
def rotateN (locked : Locked) : Nat → Piece → Piece
  | 0, p => p
  | n + 1, p => ((rotateN locked n p).rotate locked).1

/-- Example board of §8 of the specification: row 5 fully occupied plus a
single locked cell at `(3, 4)`. -/
def exL2 : Locked :=
  ((List.range 10).map (fun (i : Nat) => (((i : Int), (5 : Int)), ((7,7,7) : Color)))) ++
  [(((3 : Int), (4 : Int)), ((8,8,8) : Color))]

/-- Example board with a single locked cell at `(3, 4)`: no full row. -/
def exL10 : Locked := [(((3 : Int), (4 : Int)), ((9, 9, 9) : Color))]

/-- Example board: rows 16–19 occupied in columns 0–8, column 9 free. -/
def exL6 : Locked :=
  (List.range 4).flatMap (fun (dy : Nat) =>
    (List.range 9).map (fun (x : Nat) => (((x : Int), (16 : Int) + (dy : Int)), ((100,100,100) : Color))))

/-- A vertical I piece filling column 9 of rows 16–19. -/
def exPieceI6 : Piece :=
  { type := .I, rotations := TETROMINOES .I, rotation := 1,
    shape := (TETROMINOES .I).getD 1 [], x := 7, y := 16, color := (0,240,240) }

/-- Game state about to lock `exPieceI6`, completing four rows at level 3. -/
def exSt6 : Tetris :=
  { locked := exL6, current := exPieceI6, next_piece := Piece.init .O,
    score := 0, lines := 20, level := 3, fall_speed := 1/2, game_over := false }

/-- A vertical I piece protruding above the top of the board. -/
def exPieceI1 : Piece :=
  { type := .I, rotations := TETROMINOES .I, rotation := 1,
    shape := (TETROMINOES .I).getD 1 [], x := 3, y := -1, color := (0,240,240) }

/-- Game state about to lock `exPieceI1`, whose top cell is at row −1. -/
def exSt1 : Tetris :=
  { locked := emptyLocked, current := exPieceI1, next_piece := Piece.init .J,
    score := 0, lines := 0, level := 1, fall_speed := 3/5, game_over := false }

/-- A T piece inside a fully occupied board: no rotation can succeed. -/
def exP4 : Piece := { Piece.init .T with y := 5 }

/-- A T piece against the right wall: rotation succeeds via the first
wall kick. -/
def exP5 : Piece := { Piece.init .T with x := 8, y := 5 }

/-- Game state whose current piece sits at a `valid_space` position over
the board `exL2`. -/
def exSt7 : Tetris :=
  { locked := exL2, current := { Piece.init .T with y := 10 },
    next_piece := Piece.init .I,
    score := 0, lines := 0, level := 1, fall_speed := 3/5, game_over := false }

/-! ### Dictionary lemmas -/

theorem dget_cons (e : (Int × Int) × Color) (t : Locked) (p : Int × Int) :
    dget (e :: t) p = if e.1 = p then some e.2 else dget t p := by
  by_cases h : e.1 = p <;> simp [dget, List.find?_cons, h]

theorem dget_append_single (l : Locked) (k : Int × Int) (v : Color) (p : Int × Int) :
    dget (l ++ [(k, v)]) p =
      ((dget l p).or (if k = p then some v else none)) := by
  induction l with
  | nil => by_cases h : k = p <;> simp [dget, List.find?_cons, h]
  | cons e t ih =>
    by_cases h : e.1 = p
    · simp [List.cons_append, dget_cons, h]
    · simpa [List.cons_append, dget_cons, h] using ih

theorem dmem_cons (e : (Int × Int) × Color) (t : Locked) (k : Int × Int) :
    dmem (e :: t) k = (if e.1 = k then true else dmem t k) := by
  by_cases hek : e.1 = k <;> simp [dmem, dget_cons, hek]

theorem dget_map_replace (l : Locked) (k : Int × Int) (v : Color) (p : Int × Int) :
    dget (l.map (fun e => if e.1 = k then (k, v) else e)) p =
      if p = k then (if dmem l k then some v else none) else dget l p := by
  induction l with
  | nil => simp [dget, dmem]
  | cons e t ih =>
    simp only [List.map_cons, dget_cons, dmem_cons]
    by_cases hpk : p = k
    · subst hpk
      by_cases hek : e.1 = p
      · simp [hek]
      · simpa [hek] using ih
    · by_cases hek : e.1 = k
      · have hkp : ¬ k = p := fun h => hpk h.symm
        simp [hek, hpk, hkp, ih]
      · by_cases hep : e.1 = p
        · simp [hek, hpk, hep]
        · simp [hek, hpk, hep, ih]

theorem dget_dset (l : Locked) (k : Int × Int) (v : Color) (p : Int × Int) :
    dget (dset l k v) p = if p = k then some v else dget l p := by
  unfold dset
  by_cases hm : dmem l k
  · rw [if_pos hm, dget_map_replace]
    by_cases hpk : p = k <;> simp [hpk, hm]
  · rw [if_neg hm, dget_append_single]
    have hnone : dget l k = none := Option.not_isSome_iff_eq_none.mp hm
    by_cases hpk : p = k
    · subst hpk
      simp [hnone]
    · have hkp : ¬ k = p := fun h => hpk h.symm
      rw [if_neg hkp, if_neg hpk]
      cases dget l p <;> simp

theorem dget_ddel (l : Locked) (k : Int × Int) (p : Int × Int) :
    dget (ddel l k) p = if p = k then none else dget l p := by
  induction l with
  | nil => simp [ddel, dget]
  | cons e t ih =>
    simp only [ddel] at ih ⊢
    rw [List.filter_cons]
    by_cases hek : e.1 = k
    · have hdec : (decide (¬ e.1 = k)) = false := by simp [hek]
      rw [hdec]
      simp only [Bool.false_eq_true, if_false]
      rw [ih]
      by_cases hpk : p = k
      · simp [hpk]
      · have hep : ¬ e.1 = p := by rw [hek]; exact fun h => hpk h.symm
        simp [hpk, dget_cons, hep]
    · have hdec : (decide (¬ e.1 = k)) = true := by simp [hek]
      rw [hdec]
      simp only [if_true]
      simp only [dget_cons]
      by_cases hep : e.1 = p
      · have hpk : ¬ p = k := by rw [← hep]; exact hek
        simp [hep, hpk]
      · have ih2 : dget (List.filter (fun e => !decide (e.1 = k)) t) p
            = if p = k then none else dget t p := by
          simpa [decide_not] using ih
        simp [hep, ih2]

theorem dmem_iff (l : Locked) (k : Int × Int) :
    dmem l k = true ↔ (dget l k).isSome = true := Iff.rfl

theorem dget_isSome_bounds {l : Locked} (hB : InBounds l) {p : Int × Int}
    (h : (dget l p).isSome) :
    0 ≤ p.1 ∧ p.1 < COLUMNS ∧ 0 ≤ p.2 ∧ p.2 < ROWS := by
  unfold dget at h
  cases hf : l.find? (fun e => decide (e.1 = p)) with
  | none => rw [hf] at h; simp at h
  | some e =>
    have he : e ∈ l := List.mem_of_find?_eq_some hf
    have hkey : e.1 = p := by
      have := List.find?_some hf
      simpa using this
    have := hB e he
    rwa [hkey] at this

/-! ### Range, full-line, max and counting lemmas -/

theorem mem_intRange (n : Nat) (a : Int) : a ∈ intRange n ↔ 0 ≤ a ∧ a < (n : Int) := by
  unfold intRange
  rw [List.mem_map]
  constructor
  · rintro ⟨i, hi, rfl⟩
    rw [List.mem_range] at hi
    omega
  · rintro ⟨h0, hn⟩
    exact ⟨a.toNat, by rw [List.mem_range]; omega, by omega⟩

theorem nodup_intRange (n : Nat) : (intRange n).Nodup := by
  unfold intRange
  refine List.Nodup.map ?_ (List.nodup_range n)
  intro a b h
  simpa using h

theorem intRange_succ (n : Nat) : intRange (n + 1) = intRange n ++ [(n : Int)] := by
  simp [intRange, List.range_succ]

theorem filter_intRange_lt (n : Nat) (m : Int) :
    (intRange n).filter (fun r => decide (r < m)) = intRange (min m.toNat n) := by
  induction n with
  | zero => simp [intRange]
  | succ n ih =>
    rw [intRange_succ, List.filter_append, ih]
    by_cases h : (n : Int) < m
    · have h1 : min m.toNat (n + 1) = n + 1 := by omega
      have h2 : min m.toNat n = n := by omega
      simp [h, h1, h2, intRange_succ]
    · have h1 : min m.toNat (n + 1) = min m.toNat n := by omega
      simp [h, h1]

theorem mem_linesToClear (grid : Int → Int → Option Color) (y : Int) :
    y ∈ linesToClear grid ↔ (0 ≤ y ∧ y < 20 ∧ rowFull grid y = true) := by
  simp [linesToClear, List.mem_filter, rowRange, mem_intRange, and_assoc]

theorem nodup_linesToClear (grid : Int → Int → Option Color) :
    (linesToClear grid).Nodup :=
  (nodup_intRange 20).filter _

theorem le_foldl_max (l : List Int) (a : Int) : a ≤ l.foldl max a := by
  induction l generalizing a with
  | nil => simp
  | cons b t ih => exact le_trans (le_max_left a b) (ih (max a b))

theorem mem_le_foldl_max (l : List Int) (a x : Int) (hx : x ∈ l) : x ≤ l.foldl max a := by
  induction l generalizing a with
  | nil => cases hx
  | cons b t ih =>
    rcases List.mem_cons.mp hx with rfl | hx'
    · exact le_trans (le_max_right a x) (le_foldl_max t _)
    · exact ih _ hx'

theorem foldl_max_mem (l : List Int) (a : Int) : l.foldl max a = a ∨ l.foldl max a ∈ l := by
  induction l generalizing a with
  | nil => exact Or.inl rfl
  | cons b t ih =>
    rw [List.foldl_cons]
    rcases ih (max a b) with h | h
    · rw [h]
      rcases max_choice a b with h2 | h2
      · exact Or.inl h2
      · right
        rw [h2]
        exact List.mem_cons_self b t
    · exact Or.inr (List.mem_cons_of_mem b h)

theorem le_maxI (l : List Int) (x : Int) (hx : x ∈ l) : x ≤ maxI l :=
  mem_le_foldl_max l _ x hx

theorem maxI_mem (l : List Int) (hne : l ≠ []) : maxI l ∈ l := by
  cases l with
  | nil => exact absurd rfl hne
  | cons b t =>
    unfold maxI
    rcases foldl_max_mem (b :: t) ((b :: t).headD 0) with h | h
    · rw [h]
      exact List.mem_cons_self b t
    · exact h

theorem shiftFor_pos (lines : List Int) (y m : Int) (hm : m ∈ lines) (hym : y < m) :
    0 < shiftFor lines y := by
  unfold shiftFor
  have hmem : m ∈ lines.filter (fun c => decide (y < c)) :=
    List.mem_filter.mpr ⟨hm, by simpa using hym⟩
  exact List.length_pos.mpr (List.ne_nil_of_mem hmem)

theorem shiftFor_eq_zero (lines : List Int) (y : Int) (h : ∀ c ∈ lines, c ≤ y) :
    shiftFor lines y = 0 := by
  unfold shiftFor
  have hnil : lines.filter (fun c => decide (y < c)) = [] :=
    List.filter_eq_nil_iff.mpr (fun c hc => by
      simp only [decide_eq_true_eq]
      exact not_lt.mpr (h c hc))
  rw [hnil]
  rfl

theorem filter_length_split (r1 r2 : Int) (h : r1 ≤ r2) (l : List Int) :
    (l.filter (fun c => decide (r1 < c))).length =
      (l.filter (fun c => decide (r1 < c ∧ c ≤ r2))).length +
      (l.filter (fun c => decide (r2 < c))).length := by
  induction l with
  | nil => simp
  | cons c t ih =>
    simp only [List.filter_cons, decide_eq_true_eq]
    by_cases h1 : r1 < c
    · by_cases h2 : c ≤ r2
      · rw [if_pos h1, if_pos (show r1 < c ∧ c ≤ r2 from ⟨h1, h2⟩),
            if_neg (show ¬ r2 < c by omega)]
        simp only [List.length_cons]
        omega
      · rw [if_pos h1, if_neg (show ¬ (r1 < c ∧ c ≤ r2) from fun hh => h2 hh.2),
            if_pos (show r2 < c by omega)]
        simp only [List.length_cons]
        omega
    · rw [if_neg h1, if_neg (show ¬ (r1 < c ∧ c ≤ r2) from fun hh => h1 hh.1),
          if_neg (show ¬ r2 < c by omega)]
      exact ih

theorem nodup_length_le_Ioc (l : List Int) (hnd : l.Nodup) (a b : Int)
    (hsub : ∀ x ∈ l, a < x ∧ x ≤ b) : l.length ≤ (b - a).toNat := by
  have h1 : l.toFinset ⊆ Finset.Ioc a b := by
    intro x hx
    rw [List.mem_toFinset] at hx
    exact Finset.mem_Ioc.mpr (hsub x hx)
  have h2 := Finset.card_le_card h1
  rw [List.toFinset_card_of_nodup hnd] at h2
  rwa [Int.card_Ioc] at h2

theorem dest_le (lines : List Int) (m r : Int) (hnd : lines.Nodup)
    (hub : ∀ c ∈ lines, c ≤ m) (hr : r ≤ m) :
    r + (shiftFor lines r : Int) ≤ m := by
  unfold shiftFor
  have hlen := nodup_length_le_Ioc (lines.filter (fun c => decide (r < c)))
    (hnd.filter _) r m (fun x hx => by
      have hx' := List.mem_filter.mp hx
      exact ⟨by simpa using hx'.2, hub x hx'.1⟩)
  omega

theorem shift_inj (lines : List Int) (hnd : lines.Nodup) (r1 r2 : Int)
    (h12 : r1 < r2) (hnotin : r2 ∉ lines)
    (heq : r1 + (shiftFor lines r1 : Int) = r2 + (shiftFor lines r2 : Int)) : False := by
  have hsplit := filter_length_split r1 r2 (le_of_lt h12) lines
  have hmid : ((lines.filter (fun c => decide (r1 < c ∧ c ≤ r2))).length : Int) = r2 - r1 := by
    unfold shiftFor at heq
    omega
  have hb := nodup_length_le_Ioc (lines.filter (fun c => decide (r1 < c ∧ c ≤ r2)))
    (hnd.filter _) r1 (r2 - 1) (fun x hx => by
      have hx' := List.mem_filter.mp hx
      have hcond : r1 < x ∧ x ≤ r2 := by simpa using hx'.2
      have hxne : x ≠ r2 := fun hh => hnotin (hh ▸ hx'.1)
      exact ⟨hcond.1, by omega⟩)
  omega

/-! ### Lemmas about `srcFor` -/

theorem srcFor_some (lines : List Int) (l1 : Locked) (k : Int) (cnt : Nat) (a b r : Int)
    (h : srcFor lines l1 k cnt a b = some r) :
    k ≤ r ∧ r < k + cnt ∧ r + (shiftFor lines r : Int) = b ∧ (dget l1 (a, r)).isSome = true := by
  induction cnt generalizing k with
  | zero => simp [srcFor] at h
  | succ n ih =>
    simp only [srcFor] at h
    by_cases hc : (k + (shiftFor lines k : Int) = b ∧ (dget l1 (a, k)).isSome)
    · rw [if_pos hc] at h
      have hkr := Option.some.inj h
      subst hkr
      exact ⟨le_refl _, by omega, hc.1, hc.2⟩
    · rw [if_neg hc] at h
      have hres := ih (k + 1) h
      exact ⟨by omega, by omega, hres.2.2⟩

theorem srcFor_none (lines : List Int) (l1 : Locked) (k : Int) (cnt : Nat) (a b : Int)
    (h : ∀ r, k ≤ r → r < k + cnt →
      ¬ (r + (shiftFor lines r : Int) = b ∧ (dget l1 (a, r)).isSome = true)) :
    srcFor lines l1 k cnt a b = none := by
  induction cnt generalizing k with
  | zero => rfl
  | succ n ih =>
    simp only [srcFor]
    rw [if_neg (h k le_rfl (by omega))]
    exact ih (k + 1) (fun r h1 h2 => h r (by omega) (by omega))

theorem srcFor_isSome (lines : List Int) (l1 : Locked) (k : Int) (cnt : Nat) (a b r : Int)
    (hk : k ≤ r) (hr : r < k + cnt)
    (hc : r + (shiftFor lines r : Int) = b ∧ (dget l1 (a, r)).isSome = true) :
    (srcFor lines l1 k cnt a b).isSome = true := by
  induction cnt generalizing k with
  | zero => omega
  | succ n ih =>
    simp only [srcFor]
    by_cases hck : (k + (shiftFor lines k : Int) = b ∧ (dget l1 (a, k)).isSome)
    · rw [if_pos hck]
      rfl
    · rw [if_neg hck]
      have hkr : k ≠ r := fun hh => hck (hh ▸ hc)
      exact ih (k + 1) (by omega) (by omega)

/-! ### Pointwise description of the two mutation stages of `clear_lines` -/

theorem delStep_dget (l : Locked) (x row a b : Int) :
    dget (if dmem l (x, row) then ddel l (x, row) else l) (a, b)
      = if (a, b) = (x, row) then none else dget l (a, b) := by
  by_cases hm : dmem l (x, row)
  · rw [if_pos hm, dget_ddel]
  · rw [if_neg hm]
    by_cases he : (a, b) = (x, row)
    · rw [if_pos he, he]
      exact Option.not_isSome_iff_eq_none.mp hm
    · rw [if_neg he]

theorem delRow_dget (xs : List Int) (row : Int) (l : Locked) (a b : Int) :
    dget (xs.foldl (fun l x => if dmem l (x, row) then ddel l (x, row) else l) l) (a, b)
      = if b = row ∧ a ∈ xs then none else dget l (a, b) := by
  induction xs generalizing l with
  | nil => simp
  | cons x t ih =>
    rw [List.foldl_cons, ih, delStep_dget]
    by_cases hb : b = row
    · by_cases hax : a = x
      · simp [hb, hax]
      · simp [hb, hax, Prod.ext_iff]
    · simp [hb, Prod.ext_iff]

theorem deleteFullRows_dget (lines : List Int) (locked : Locked) (a b : Int) :
    dget (deleteFullRows lines locked) (a, b)
      = if b ∈ lines ∧ a ∈ colRange then none else dget locked (a, b) := by
  unfold deleteFullRows
  have haux : ∀ (rs : List Int) (l : Locked),
      dget (rs.foldl (fun l row =>
        colRange.foldl (fun l x => if dmem l (x, row) then ddel l (x, row) else l) l) l) (a, b)
        = if b ∈ rs ∧ a ∈ colRange then none else dget l (a, b) := by
    intro rs
    induction rs with
    | nil => intro l; simp
    | cons r t ih =>
      intro l
      rw [List.foldl_cons, ih, delRow_dget]
      by_cases hac : a ∈ colRange
      · by_cases hbt : b ∈ t
        · simp [hac, hbt]
        · by_cases hbr : b = r
          · simp [hac, hbt, hbr]
          · simp [hac, hbt, hbr]
      · simp [hac]
  rw [haux]
  simp [List.mem_reverse]

theorem moveStep_dget (l : Locked) (x y : Int) (sh : Nat) (hsh : 0 < sh) (a b : Int) :
    dget (match dget l (x, y) with
          | some v => dset (ddel l (x, y)) (x, y + (sh : Int)) v
          | none => l) (a, b)
      = if a = x ∧ (dget l (x, y)).isSome = true then
          (if b = y + (sh : Int) then dget l (x, y)
           else if b = y then none else dget l (a, b))
        else dget l (a, b) := by
  have hy : ¬ ((y : Int) = y + (sh : Int)) := by omega
  cases hv : dget l (x, y) with
  | none => simp [hv]
  | some v =>
    simp only [dget_dset, dget_ddel]
    by_cases hax : a = x
    · subst hax
      by_cases hb1 : b = y + (sh : Int)
      · simp [hb1, hv, Prod.ext_iff]
      · by_cases hb2 : b = y
        · simp [hb1, hb2, hv, Prod.ext_iff, hy]
        · simp [hb1, hb2, hv, Prod.ext_iff]
    · simp [hax, Prod.ext_iff]

theorem moveRow_dget (xs : List Int) (y : Int) (sh : Nat) (hsh : 0 < sh)
    (l : Locked) (a b : Int) :
    dget (xs.foldl (fun l x =>
        match dget l (x, y) with
        | some v => dset (ddel l (x, y)) (x, y + (sh : Int)) v
        | none => l) l) (a, b)
      = if a ∈ xs ∧ (dget l (a, y)).isSome = true then
          (if b = y + (sh : Int) then dget l (a, y)
           else if b = y then none else dget l (a, b))
        else dget l (a, b) := by
  have hy : ¬ ((y : Int) = y + (sh : Int)) := by omega
  induction xs generalizing l with
  | nil => simp
  | cons x t ih =>
    rw [List.foldl_cons, ih]
    simp only [moveStep_dget l x y sh hsh]
    by_cases hax : a = x
    · subst hax
      by_cases hs : (dget l (a, y)).isSome = true
      · simp [hs, hy]
      · simp [hs]
    · simp [hax, List.mem_cons]

/-! ### The shift-stage invariant -/

theorem clearedView_at_k (lines : List Int) (m : Int) (l1 : Locked) (k a : Int)
    (hm : m ∈ lines) (hkm : k < m) :
    clearedView lines m l1 k a k = none := by
  have hsh : 0 < shiftFor lines k := shiftFor_pos lines k m hm hkm
  unfold clearedView
  rw [if_neg (lt_irrefl k)]
  have hcnt : (m - k).toNat = (m - (k + 1)).toNat + 1 := by omega
  rw [hcnt]
  simp only [srcFor]
  rw [if_neg (fun hc => by omega : ¬ (k + (shiftFor lines k : Int) = k ∧ (dget l1 (a, k)).isSome = true))]
  rw [srcFor_none lines l1 (k + 1) ((m - (k + 1)).toNat) a k (fun r h1 h2 hc => by
    have h3 : (0 : Int) ≤ (shiftFor lines r : Int) := by positivity
    omega)]
  rw [if_pos hkm]

theorem clearedView_succ (lines : List Int) (m : Int) (l1 : Locked) (k a b : Int)
    (hkm : k < m) (hbk : b ≠ k)
    (hcond : ¬ (k + (shiftFor lines k : Int) = b ∧ (dget l1 (a, k)).isSome = true)) :
    clearedView lines m l1 k a b = clearedView lines m l1 (k + 1) a b := by
  unfold clearedView
  by_cases hblt : b < k
  · rw [if_pos hblt, if_pos (by omega : b < k + 1)]
  · rw [if_neg hblt, if_neg (by omega : ¬ b < k + 1)]
    have hcnt : (m - k).toNat = (m - (k + 1)).toNat + 1 := by omega
    rw [hcnt]
    simp only [srcFor]
    rw [if_neg hcond]

theorem shiftStep_view (lines : List Int) (m : Int) (l1 : Locked) (k : Int)
    (hm : m ∈ lines)
    (hcols : ∀ a b, (dget l1 (a, b)).isSome = true → a ∈ colRange)
    (hkm : k < m)
    (l : Locked)
    (hI : ∀ a b, dget l (a, b) = clearedView lines m l1 (k + 1) a b) :
    ∀ a b, dget (shiftStep lines l k) (a, b) = clearedView lines m l1 k a b := by
  intro a b
  have hsh : 0 < shiftFor lines k := shiftFor_pos lines k m hm hkm
  have hcnt : (m - k).toNat = (m - (k + 1)).toNat + 1 := by omega
  have hF0 : dget l (a, k) = dget l1 (a, k) := by
    rw [hI a k]
    unfold clearedView
    rw [if_pos (by omega : k < k + 1)]
  unfold shiftStep
  rw [if_pos hsh]
  rw [moveRow_dget colRange k (shiftFor lines k) hsh l a b]
  simp only [hF0]
  by_cases hA : a ∈ colRange ∧ (dget l1 (a, k)).isSome = true
  · rw [if_pos hA]
    by_cases hb1 : b = k + (shiftFor lines k : Int)
    · rw [if_pos hb1]
      unfold clearedView
      rw [if_neg (by omega : ¬ b < k)]
      rw [hcnt]
      simp only [srcFor]
      rw [if_pos ⟨hb1.symm, hA.2⟩]
    · rw [if_neg hb1]
      by_cases hb2 : b = k
      · rw [if_pos hb2, hb2]
        exact (clearedView_at_k lines m l1 k a hm hkm).symm
      · rw [if_neg hb2, hI a b]
        exact (clearedView_succ lines m l1 k a b hkm hb2
          (fun hc => hb1 hc.1.symm)).symm
  · rw [if_neg hA]
    have hBnone : (dget l1 (a, k)).isSome = false := by
      by_cases hs : (dget l1 (a, k)).isSome = true
      · exact absurd ⟨hcols a k hs, hs⟩ hA
      · simpa using hs
    by_cases hb2 : b = k
    · rw [hb2, hI a k]
      have h1 : clearedView lines m l1 (k + 1) a k = dget l1 (a, k) := by
        unfold clearedView
        rw [if_pos (by omega : k < k + 1)]
      rw [h1, clearedView_at_k lines m l1 k a hm hkm]
      exact Option.not_isSome_iff_eq_none.mp (by simp [hBnone])
    · rw [hI a b]
      exact (clearedView_succ lines m l1 k a b hkm hb2
        (fun hc => by rw [hc.2] at hBnone; exact absurd hBnone (by simp))).symm

theorem shiftLoop_view (lines : List Int) (m : Int) (l1 : Locked)
    (hm : m ∈ lines)
    (hcols : ∀ a b, (dget l1 (a, b)).isSome = true → a ∈ colRange) :
    ∀ (j : Nat), (j : Int) ≤ m →
      ∀ l, (∀ a b, dget l (a, b) = clearedView lines m l1 (j : Int) a b) →
      ∀ a b, dget (((intRange j).reverse).foldl (shiftStep lines) l) (a, b)
        = clearedView lines m l1 0 a b := by
  intro j
  induction j with
  | zero =>
    intro hj l hI a b
    simpa [intRange] using hI a b
  | succ n ih =>
    intro hj l hI a b
    have hrev : (intRange (n + 1)).reverse = (n : Int) :: (intRange n).reverse := by
      rw [intRange_succ]
      simp
    rw [hrev, List.foldl_cons]
    refine ih (by omega) (shiftStep lines l (n : Int)) ?_ a b
    intro a' b'
    refine shiftStep_view lines m l1 (n : Int) hm hcols (by omega) l ?_ a' b'
    intro a2 b2
    have hc : ((n + 1 : Nat) : Int) = (n : Int) + 1 := by push_cast; ring
    rw [← hc]
    exact hI a2 b2

theorem shiftRowsDown_view (lines : List Int) (locked1 : Locked)
    (hne : lines ≠ [])
    (hbnd : ∀ c ∈ lines, 0 ≤ c ∧ c < 20)
    (hcols : ∀ a b, (dget locked1 (a, b)).isSome = true → a ∈ colRange) :
    ∀ a b, dget (shiftRowsDown lines (maxI lines) locked1) (a, b)
      = clearedView lines (maxI lines) locked1 0 a b := by
  have hm : maxI lines ∈ lines := maxI_mem lines hne
  have hm0 : 0 ≤ maxI lines := (hbnd _ hm).1
  have hm20 : maxI lines < 20 := (hbnd _ hm).2
  unfold shiftRowsDown
  have hfilt : rowRange.filter (fun r => decide (r < maxI lines))
      = intRange (maxI lines).toNat := by
    unfold rowRange
    rw [filter_intRange_lt]
    congr 1
    omega
  rw [hfilt]
  intro a b
  refine shiftLoop_view lines (maxI lines) locked1 hm hcols
    (maxI lines).toNat (by omega) locked1 ?_ a b
  intro a' b'
  have hmm : (((maxI lines).toNat : Nat) : Int) = maxI lines := by omega
  rw [hmm]
  unfold clearedView
  by_cases hb : b' < maxI lines
  · rw [if_pos hb]
  · rw [if_neg hb]
    have h0 : (maxI lines - maxI lines).toNat = 0 := by omega
    rw [h0]
    simp only [srcFor]
    rw [if_neg hb]

/-! ### Characterisation of `clear_lines` -/

theorem linesToClear_bounds (grid : Int → Int → Option Color) :
    ∀ c ∈ linesToClear grid, 0 ≤ c ∧ c < 20 := by
  intro c hc
  have h := (mem_linesToClear grid c).mp hc
  exact ⟨h.1, h.2.1⟩

theorem isSome_mem_colRange {locked : Locked} (hB : InBounds locked) {a b : Int}
    (h : (dget locked (a, b)).isSome = true) : a ∈ colRange := by
  have hb := dget_isSome_bounds hB h
  unfold COLUMNS at hb
  unfold colRange
  rw [mem_intRange]
  omega

theorem deleteFullRows_dget_inb (lines : List Int) (locked : Locked)
    (hB : InBounds locked) (a b : Int) :
    dget (deleteFullRows lines locked) (a, b)
      = if b ∈ lines then none else dget locked (a, b) := by
  rw [deleteFullRows_dget]
  by_cases hbl : b ∈ lines
  · by_cases hac : a ∈ colRange
    · simp [hbl, hac]
    · rw [if_neg (fun hh => hac hh.2), if_pos hbl]
      cases hval : dget locked (a, b) with
      | none => rfl
      | some v => exact absurd (isSome_mem_colRange hB (by rw [hval]; rfl)) hac
  · rw [if_neg (fun hh => hbl hh.1), if_neg hbl]

theorem clear_lines_eq_pos (grid : Int → Int → Option Color) (locked : Locked)
    (hne : linesToClear grid ≠ []) :
    clear_lines grid locked = ((linesToClear grid).length,
      shiftRowsDown (linesToClear grid) (maxI (linesToClear grid))
        (deleteFullRows (linesToClear grid) locked)) := by
  simp only [clear_lines]
  have h1 : (linesToClear grid).isEmpty = false := by
    cases hl : linesToClear grid with
    | nil => exact absurd hl hne
    | cons e t => rfl
  rw [h1]
  simp only [Bool.false_eq_true, if_false]

theorem clear_lines_eq_nil (grid : Int → Int → Option Color) (locked : Locked)
    (hnil : linesToClear grid = []) :
    clear_lines grid locked = (0, locked) := by
  simp only [clear_lines]
  have h1 : (linesToClear grid).isEmpty = true := by
    rw [hnil]
    rfl
  rw [h1]
  simp only [if_true]

theorem clear_lines_count (grid : Int → Int → Option Color) (locked : Locked) :
    (clear_lines grid locked).1 = (linesToClear grid).length := by
  by_cases h : linesToClear grid = []
  · rw [clear_lines_eq_nil grid locked h, h]
    rfl
  · rw [clear_lines_eq_pos grid locked h]

theorem clear_lines_moves (grid : Int → Int → Option Color) (locked : Locked)
    (hB : InBounds locked) (a r : Int) (hr0 : 0 ≤ r)
    (hrn : r ∉ linesToClear grid) :
    dget (clear_lines grid locked).2 (a, r + (shiftFor (linesToClear grid) r : Int))
      = dget locked (a, r) := by
  by_cases hne : linesToClear grid = []
  · rw [clear_lines_eq_nil grid locked hne, hne]
    have : shiftFor ([] : List Int) r = 0 := rfl
    rw [this]
    norm_num
  · have hbnd := linesToClear_bounds grid
    have hnd := nodup_linesToClear grid
    have hm : maxI (linesToClear grid) ∈ linesToClear grid := maxI_mem _ hne
    have hub : ∀ c ∈ linesToClear grid, c ≤ maxI (linesToClear grid) :=
      fun c hc => le_maxI _ c hc
    have hm0 : 0 ≤ maxI (linesToClear grid) := (hbnd _ hm).1
    have hm20 : maxI (linesToClear grid) < 20 := (hbnd _ hm).2
    have hd1 : ∀ a' b', dget (deleteFullRows (linesToClear grid) locked) (a', b')
        = if b' ∈ linesToClear grid then none else dget locked (a', b') :=
      fun a' b' => deleteFullRows_dget_inb _ locked hB a' b'
    have hcols : ∀ a' b',
        (dget (deleteFullRows (linesToClear grid) locked) (a', b')).isSome = true →
        a' ∈ colRange := by
      intro a' b' hs
      rw [hd1 a' b'] at hs
      by_cases hbl : b' ∈ linesToClear grid
      · rw [if_pos hbl] at hs
        simp at hs
      · rw [if_neg hbl] at hs
        exact isSome_mem_colRange hB hs
    rw [clear_lines_eq_pos grid locked hne]
    rw [shiftRowsDown_view (linesToClear grid) _ hne hbnd hcols a
      (r + (shiftFor (linesToClear grid) r : Int))]
    have hs0 : ¬ (r + (shiftFor (linesToClear grid) r : Int) < 0) := by
      have : (0 : Int) ≤ (shiftFor (linesToClear grid) r : Int) := by positivity
      omega
    unfold clearedView
    rw [if_neg hs0]
    cases hsf : srcFor (linesToClear grid) (deleteFullRows (linesToClear grid) locked) 0
        ((maxI (linesToClear grid) - 0).toNat) a
        (r + (shiftFor (linesToClear grid) r : Int)) with
    | some r' =>
      have hss := srcFor_some _ _ _ _ _ _ _ hsf
      have hr'm : r' < maxI (linesToClear grid) := by
        have := hss.2.1
        omega
      have hval := hss.2.2.2
      rw [hd1 a r'] at hval
      by_cases hbl : r' ∈ linesToClear grid
      · rw [if_pos hbl] at hval
        simp at hval
      · rw [if_neg hbl] at hval
        have heq : r' + (shiftFor (linesToClear grid) r' : Int)
            = r + (shiftFor (linesToClear grid) r : Int) := hss.2.2.1
        have hrr : r' = r := by
          rcases lt_trichotomy r' r with hlt | heqr | hgt
          · exact absurd (shift_inj _ hnd r' r hlt hrn heq) (fun h => h)
          · exact heqr
          · exact absurd (shift_inj _ hnd r r' hgt hbl heq.symm) (fun h => h)
        show dget (deleteFullRows (linesToClear grid) locked) (a, r') = dget locked (a, r)
        rw [hd1 a r', if_neg hbl, hrr]
    | none =>
      show (if r + (shiftFor (linesToClear grid) r : Int) < maxI (linesToClear grid) then none
          else dget (deleteFullRows (linesToClear grid) locked)
            (a, r + (shiftFor (linesToClear grid) r : Int))) = dget locked (a, r)
      by_cases hrm : r < maxI (linesToClear grid)
      · have hlocked_none : dget locked (a, r) = none := by
          cases hval : dget locked (a, r) with
          | none => rfl
          | some v =>
            have hcond : r + (shiftFor (linesToClear grid) r : Int)
                = r + (shiftFor (linesToClear grid) r : Int) ∧
                (dget (deleteFullRows (linesToClear grid) locked) (a, r)).isSome = true := by
              refine ⟨rfl, ?_⟩
              rw [hd1 a r, if_neg hrn, hval]
              rfl
            have := srcFor_isSome (linesToClear grid)
              (deleteFullRows (linesToClear grid) locked) 0
              ((maxI (linesToClear grid) - 0).toNat) a
              (r + (shiftFor (linesToClear grid) r : Int)) r hr0 (by omega) hcond
            rw [hsf] at this
            simp at this
        rw [hlocked_none]
        by_cases hsm : r + (shiftFor (linesToClear grid) r : Int) < maxI (linesToClear grid)
        · rw [if_pos hsm]
        · rw [if_neg hsm]
          have hsle : r + (shiftFor (linesToClear grid) r : Int) ≤ maxI (linesToClear grid) :=
            dest_le _ _ r hnd hub (by omega)
          have hsm' : r + (shiftFor (linesToClear grid) r : Int) = maxI (linesToClear grid) := by
            omega
          rw [hd1, hsm', if_pos hm]
      · have hrgt : maxI (linesToClear grid) < r := by
          rcases lt_or_eq_of_le (not_lt.mp hrm) with h | h
          · exact h
          · exact absurd (h ▸ hm) hrn
        have hsz : shiftFor (linesToClear grid) r = 0 :=
          shiftFor_eq_zero _ r (fun c hc => by have := hub c hc; omega)
        have hs_eq : r + (shiftFor (linesToClear grid) r : Int) = r := by
          rw [hsz]
          norm_num
        rw [hs_eq, if_neg (by omega : ¬ r < maxI (linesToClear grid))]
        rw [hd1, if_neg hrn]

theorem clear_lines_complete (grid : Int → Int → Option Color) (locked : Locked)
    (hB : InBounds locked) (a s : Int) (v : Color)
    (h : dget (clear_lines grid locked).2 (a, s) = some v) :
    ∃ r, 0 ≤ r ∧ r ∉ linesToClear grid ∧
      r + (shiftFor (linesToClear grid) r : Int) = s ∧ dget locked (a, r) = some v := by
  by_cases hne : linesToClear grid = []
  · rw [clear_lines_eq_nil grid locked hne] at h
    refine ⟨s, ?_, by rw [hne]; exact List.not_mem_nil s, ?_, h⟩
    · exact (dget_isSome_bounds hB (by rw [h]; rfl)).2.2.1
    · rw [hne]
      have : shiftFor ([] : List Int) s = 0 := rfl
      rw [this]
      norm_num
  · have hbnd := linesToClear_bounds grid
    have hnd := nodup_linesToClear grid
    have hm : maxI (linesToClear grid) ∈ linesToClear grid := maxI_mem _ hne
    have hub : ∀ c ∈ linesToClear grid, c ≤ maxI (linesToClear grid) :=
      fun c hc => le_maxI _ c hc
    have hd1 : ∀ a' b', dget (deleteFullRows (linesToClear grid) locked) (a', b')
        = if b' ∈ linesToClear grid then none else dget locked (a', b') :=
      fun a' b' => deleteFullRows_dget_inb _ locked hB a' b'
    have hcols : ∀ a' b',
        (dget (deleteFullRows (linesToClear grid) locked) (a', b')).isSome = true →
        a' ∈ colRange := by
      intro a' b' hs
      rw [hd1 a' b'] at hs
      by_cases hbl : b' ∈ linesToClear grid
      · rw [if_pos hbl] at hs
        simp at hs
      · rw [if_neg hbl] at hs
        exact isSome_mem_colRange hB hs
    rw [clear_lines_eq_pos grid locked hne] at h
    rw [shiftRowsDown_view (linesToClear grid) _ hne hbnd hcols a s] at h
    unfold clearedView at h
    by_cases hs0 : s < 0
    · rw [if_pos hs0] at h
      rw [hd1] at h
      by_cases hbl : s ∈ linesToClear grid
      · rw [if_pos hbl] at h
        cases h
      · rw [if_neg hbl] at h
        have := (dget_isSome_bounds hB (by rw [h]; rfl)).2.2.1
        omega
    · rw [if_neg hs0] at h
      cases hsf : srcFor (linesToClear grid) (deleteFullRows (linesToClear grid) locked) 0
          ((maxI (linesToClear grid) - 0).toNat) a s with
      | some r' =>
        rw [hsf] at h
        have h' : dget (deleteFullRows (linesToClear grid) locked) (a, r') = some v := h
        have hss := srcFor_some _ _ _ _ _ _ _ hsf
        rw [hd1] at h'
        by_cases hbl : r' ∈ linesToClear grid
        · rw [if_pos hbl] at h'
          cases h'
        · rw [if_neg hbl] at h'
          exact ⟨r', hss.1, hbl, hss.2.2.1, h'⟩
      | none =>
        rw [hsf] at h
        have h' : (if s < maxI (linesToClear grid) then none
            else dget (deleteFullRows (linesToClear grid) locked) (a, s)) = some v := h
        by_cases hsm : s < maxI (linesToClear grid)
        · rw [if_pos hsm] at h'
          cases h'
        · rw [if_neg hsm] at h'
          rw [hd1] at h'
          by_cases hbl : s ∈ linesToClear grid
          · rw [if_pos hbl] at h'
            cases h'
          · rw [if_neg hbl] at h'
            refine ⟨s, by omega, hbl, ?_, h'⟩
            have hsz : shiftFor (linesToClear grid) s = 0 :=
              shiftFor_eq_zero _ s (fun c hc => by have := hub c hc; omega)
            rw [hsz]
            norm_num

theorem mem_dget_isSome (l : Locked) (e : (Int × Int) × Color) (he : e ∈ l) :
    (dget l e.1).isSome = true := by
  unfold dget
  cases hf : l.find? (fun x => decide (x.1 = e.1)) with
  | some e' => rfl
  | none =>
    have := List.find?_eq_none.mp hf e he
    simp at this

theorem clear_lines_inBounds (grid : Int → Int → Option Color) (locked : Locked)
    (hB : InBounds locked) : InBounds (clear_lines grid locked).2 := by
  intro e he
  have hs := mem_dget_isSome _ e he
  cases hv : dget (clear_lines grid locked).2 e.1 with
  | none =>
    rw [hv] at hs
    simp at hs
  | some v =>
    have hv' : dget (clear_lines grid locked).2 (e.1.1, e.1.2) = some v := hv
    obtain ⟨r, hr0, hrn, hrs, hval⟩ :=
      clear_lines_complete grid locked hB e.1.1 e.1.2 v hv'
    have hbloc := dget_isSome_bounds hB (p := (e.1.1, r)) (by rw [hval]; rfl)
    unfold COLUMNS ROWS at hbloc
    have hsh0 : (0 : Int) ≤ (shiftFor (linesToClear grid) r : Int) := by positivity
    refine ⟨hbloc.1, hbloc.2.1, by omega, ?_⟩
    by_cases hne : linesToClear grid = []
    · have hz : shiftFor (linesToClear grid) r = 0 := by
        rw [hne]
        rfl
      rw [hz] at hrs
      unfold ROWS
      omega
    · have hbnd := linesToClear_bounds grid
      have hnd := nodup_linesToClear grid
      have hm : maxI (linesToClear grid) ∈ linesToClear grid := maxI_mem _ hne
      have hub : ∀ c ∈ linesToClear grid, c ≤ maxI (linesToClear grid) :=
        fun c hc => le_maxI _ c hc
      have hm20 : maxI (linesToClear grid) < 20 := (hbnd _ hm).2
      by_cases hrm : r ≤ maxI (linesToClear grid)
      · have := dest_le (linesToClear grid) (maxI (linesToClear grid)) r hnd hub hrm
        unfold ROWS
        omega
      · have hz : shiftFor (linesToClear grid) r = 0 :=
          shiftFor_eq_zero _ r (fun c hc => by have := hub c hc; omega)
        rw [hz] at hrs
        have hr20 : r < 20 := by
          have := hbloc.2.2.2
          unfold ROWS at this
          omega
        unfold ROWS
        omega

/-! ### `valid_space` -/

theorem valid_space_iff (shape : Shape) (ox oy : Int) (locked : Locked) :
    valid_space shape ox oy locked = true ↔
      ∀ c ∈ shape_cells shape ox oy,
        0 ≤ c.1 ∧ c.1 < COLUMNS ∧ c.2 < ROWS ∧ (0 ≤ c.2 → dget locked c = none) := by
  unfold valid_space
  rw [List.all_eq_true]
  constructor
  · intro h c hc
    have hcell := h c hc
    by_cases h1 : c.1 < 0 ∨ COLUMNS ≤ c.1 ∨ ROWS ≤ c.2
    · rw [if_pos h1] at hcell
      cases hcell
    · rw [if_neg h1] at hcell
      push_neg at h1
      refine ⟨by omega, by omega, by omega, ?_⟩
      intro hc2
      by_cases hd : dmem locked c = true
      · rw [if_pos ⟨hc2, hd⟩] at hcell
        cases hcell
      · exact Option.not_isSome_iff_eq_none.mp (by simpa [dmem] using hd)
  · intro h c hc
    obtain ⟨h1, h2, h3, h4⟩ := h c hc
    rw [if_neg (by push_neg; exact ⟨by omega, by omega, by omega⟩)]
    rw [if_neg ?_]
    rintro ⟨hge, hmem⟩
    unfold dmem at hmem
    rw [h4 hge] at hmem
    cases hmem

/-- Claim C3: `valid_space` returns true iff every occupied cell of the
shape offset by the anchor has column in `[0, COLUMNS)`, row `< ROWS`,
and, whenever its row is nonnegative, is absent from the locked-cell
dictionary; cells with negative row are exempt from the collision check. -/
theorem claim_C3 (shape : Shape) (offset_x offset_y : Int) (locked : Locked) :
    valid_space shape offset_x offset_y locked = true ↔
      ∀ c ∈ shape_cells shape offset_x offset_y,
        0 ≤ c.1 ∧ c.1 < COLUMNS ∧ c.2 < ROWS ∧ (0 ≤ c.2 → dget locked c = none) :=
  valid_space_iff shape offset_x offset_y locked

/-- Witness for claim C3: the characterisation instantiated at the T
spawn state over the board `exL2`. -/
theorem claim_C3_witness :
    valid_space ((TETROMINOES PieceType.T).getD 0 []) 4 (-3) exL2 = true ↔
      ∀ c ∈ shape_cells ((TETROMINOES PieceType.T).getD 0 []) 4 (-3),
        0 ≤ c.1 ∧ c.1 < COLUMNS ∧ c.2 < ROWS ∧ (0 ≤ c.2 → dget exL2 c = none) :=
  claim_C3 ((TETROMINOES PieceType.T).getD 0 []) 4 (-3) exL2

/-- Claim C9: a newly spawned piece has rotation index 0, anchor column
`⌊COLUMNS/2⌋ − ⌊shapeWidth/2⌋`, anchor row `−shapeHeight`, and every
occupied cell of the spawned piece lies strictly above the visible
board. -/
theorem claim_C9 :
    ∀ t : PieceType,
      (Piece.init t).rotation = 0 ∧
      (Piece.init t).x = COLUMNS / 2 - (((Piece.init t).shape.headD []).length : Int) / 2 ∧
      (Piece.init t).y = -(((Piece.init t).shape.length : Int)) ∧
      ∀ c ∈ shape_cells (Piece.init t).shape (Piece.init t).x (Piece.init t).y, c.2 < 0 := by
  intro t
  cases t <;> exact ⟨rfl, rfl, rfl, by decide⟩

/-- Witness for claim C9: the spawn invariants instantiated at the T
piece. -/
theorem claim_C9_witness :
    (Piece.init PieceType.T).rotation = 0 ∧
    (Piece.init PieceType.T).x
      = COLUMNS / 2 - (((Piece.init PieceType.T).shape.headD []).length : Int) / 2 ∧
    (Piece.init PieceType.T).y = -(((Piece.init PieceType.T).shape.length : Int)) ∧
    ∀ c ∈ shape_cells (Piece.init PieceType.T).shape (Piece.init PieceType.T).x
        (Piece.init PieceType.T).y, c.2 < 0 :=
  claim_C9 PieceType.T

/-- Claim C10: on a board whose grid has no full row, `clear_lines`
returns 0 and leaves the locked-cell dictionary unchanged. -/
theorem claim_C10 (locked : Locked)
    (hnofull : ∀ y ∈ rowRange, rowFull (make_grid locked) y = false) :
    clear_lines (make_grid locked) locked = (0, locked) := by
  apply clear_lines_eq_nil
  unfold linesToClear
  apply List.filter_eq_nil_iff.mpr
  intro y hy
  simp [hnofull y hy]

/-- Witness for claim C10: a board with a single locked cell at `(3, 4)`
has no full row, and `clear_lines` returns `(0, locked)` on it. -/
theorem claim_C10_witness :
    (∀ y ∈ rowRange, rowFull (make_grid exL10) y = false) ∧
    clear_lines (make_grid exL10) exL10 = (0, exL10) :=
  ⟨by decide, claim_C10 exL10 (by decide)⟩

/-- Claim C2 (amended): for every in-bounds locked-cell dictionary with
grid derived from it, `clear_lines` returns the number of full rows,
the full rows are exactly the grid rows with every column occupied,
every cell of a non-full row `r` moves down by the number of full-row
indices strictly greater than `r`, and every surviving cell arises this
way. -/
theorem claim_C2 (locked : Locked) (hB : InBounds locked) :
    (clear_lines (make_grid locked) locked).1 = (linesToClear (make_grid locked)).length ∧
    (∀ y, y ∈ linesToClear (make_grid locked) ↔
      (0 ≤ y ∧ y < ROWS ∧ rowFull (make_grid locked) y = true)) ∧
    (∀ a r, 0 ≤ r → r ∉ linesToClear (make_grid locked) →
      dget (clear_lines (make_grid locked) locked).2
        (a, r + (shiftFor (linesToClear (make_grid locked)) r : Int)) = dget locked (a, r)) ∧
    (∀ a s v, dget (clear_lines (make_grid locked) locked).2 (a, s) = some v →
      ∃ r, 0 ≤ r ∧ r ∉ linesToClear (make_grid locked) ∧
        r + (shiftFor (linesToClear (make_grid locked)) r : Int) = s ∧
        dget locked (a, r) = some v) := by
  refine ⟨clear_lines_count _ _, ?_, ?_, ?_⟩
  · intro y
    rw [mem_linesToClear]
    unfold ROWS
    exact Iff.rfl
  · intro a r h1 h2
    exact clear_lines_moves _ _ hB a r h1 h2
  · intro a s v h
    exact clear_lines_complete _ _ hB a s v h

/-- Counterexample for claim C2 as stated: on the board of §8 (row 5
full, one extra cell at `(3, 4)`), after `clear_lines` row 5 is not
empty — it holds the cell moved down from `(3, 4)` to `(3, 5)` — so
"row 5 has zero locked cells" fails on the code. -/
theorem claim_C2_counterexample :
    (clear_lines (make_grid exL2) exL2).1 = 1 ∧
    dget (clear_lines (make_grid exL2) exL2).2 (3, 5) = some (8, 8, 8) :=
  ⟨by decide, by decide⟩

/-- Witness for claim C2: the amended claim applied to the §8 board
moves the cell at `(3, 4)` down by the one cleared row below it. -/
theorem claim_C2_witness :
    InBounds exL2 ∧
    dget (clear_lines (make_grid exL2) exL2).2
      (3, (4 : Int) + (shiftFor (linesToClear (make_grid exL2)) 4 : Int)) = dget exL2 (3, 4) := by
  have hB : InBounds exL2 := by decide
  exact ⟨hB, (claim_C2 exL2 hB).2.2.1 3 4 (by norm_num) (by decide)⟩

/-! ### Locking -/

theorem lockCells_fold_fst (col : Color) (cells : List (Int × Int)) :
    ∀ acc : Bool × Locked,
      (cells.foldl (fun acc c =>
        if c.2 < 0 then (true, acc.2) else (acc.1, dset acc.2 c col)) acc).1
      = (acc.1 || cells.any (fun c => decide (c.2 < 0))) := by
  induction cells with
  | nil => intro acc; simp
  | cons c t ih =>
    intro acc
    rw [List.foldl_cons]
    by_cases hc : c.2 < 0
    · rw [if_pos hc, ih]
      simp [hc]
    · rw [if_neg hc, ih]
      simp [hc]

theorem lockCells_fold_dget (col : Color) (cells : List (Int × Int)) (p : Int × Int) :
    ∀ acc : Bool × Locked,
      dget (cells.foldl (fun acc c =>
        if c.2 < 0 then (true, acc.2) else (acc.1, dset acc.2 c col)) acc).2 p
      = if p ∈ cells ∧ 0 ≤ p.2 then some col else dget acc.2 p := by
  induction cells with
  | nil => intro acc; simp
  | cons c t ih =>
    intro acc
    rw [List.foldl_cons]
    by_cases hc : c.2 < 0
    · rw [if_pos hc, ih]
      have hiff : (p ∈ t ∧ 0 ≤ p.2) ↔ (p ∈ c :: t ∧ 0 ≤ p.2) := by
        constructor
        · rintro ⟨h1, h2⟩
          exact ⟨List.mem_cons_of_mem c h1, h2⟩
        · rintro ⟨h1, h2⟩
          rcases List.mem_cons.mp h1 with heq | h1'
          · have hpc : p.2 = c.2 := by rw [heq]
            omega
          · exact ⟨h1', h2⟩
      rw [if_congr hiff rfl rfl]
    · rw [if_neg hc, ih]
      show (if p ∈ t ∧ 0 ≤ p.2 then some col else dget (dset acc.2 c col) p)
        = if p ∈ c :: t ∧ 0 ≤ p.2 then some col else dget acc.2 p
      rw [dget_dset]
      by_cases heq : p = c
      · have hb : 0 ≤ p.2 := by
          have hpc : p.2 = c.2 := by rw [heq]
          omega
        rw [if_pos (show p ∈ c :: t ∧ 0 ≤ p.2 from
          ⟨by rw [heq]; exact List.mem_cons_self c t, hb⟩)]
        by_cases hmem : p ∈ t ∧ 0 ≤ p.2
        · rw [if_pos hmem]
        · rw [if_neg hmem, if_pos heq]
      · rw [if_neg heq]
        have hiff : (p ∈ t ∧ 0 ≤ p.2) ↔ (p ∈ c :: t ∧ 0 ≤ p.2) := by
          constructor
          · rintro ⟨h1, h2⟩
            exact ⟨List.mem_cons_of_mem c h1, h2⟩
          · rintro ⟨h1, h2⟩
            rcases List.mem_cons.mp h1 with heq' | h1'
            · exact absurd heq' heq
            · exact ⟨h1', h2⟩
        rw [if_congr hiff rfl rfl]

theorem lockCells_fst (st : Tetris) :
    (lockCells st).1 = (st.game_over ||
      (shape_cells st.current.shape st.current.x st.current.y).any
        (fun c => decide (c.2 < 0))) :=
  lockCells_fold_fst st.current.color _ (st.game_over, st.locked)

theorem lockCells_dget (st : Tetris) (p : Int × Int) :
    dget (lockCells st).2 p
      = if p ∈ shape_cells st.current.shape st.current.x st.current.y ∧ 0 ≤ p.2
        then some st.current.color else dget st.locked p :=
  lockCells_fold_dget st.current.color _ p (st.game_over, st.locked)

theorem lock_piece_fields (st : Tetris) (newPiece : Piece) :
    (lock_piece st newPiece).current = st.next_piece ∧
    (lock_piece st newPiece).next_piece = newPiece ∧
    (lock_piece st newPiece).game_over = (lockCells st).1 ∧
    (lock_piece st newPiece).locked
      = (clear_lines (make_grid (lockCells st).2) (lockCells st).2).2 := by
  simp only [lock_piece]
  by_cases h : 0 < (clear_lines (make_grid (lockCells st).2) (lockCells st).2).1
  · rw [if_pos h]
    exact ⟨rfl, rfl, rfl, rfl⟩
  · rw [if_neg h]
    exact ⟨rfl, rfl, rfl, rfl⟩

theorem lockCells_inBounds (st : Tetris) (hB : InBounds st.locked)
    (hv : valid_space st.current.shape st.current.x st.current.y st.locked = true) :
    InBounds (lockCells st).2 := by
  intro e he
  have hs := mem_dget_isSome _ e he
  rw [lockCells_dget st e.1] at hs
  by_cases hcond : e.1 ∈ shape_cells st.current.shape st.current.x st.current.y ∧ 0 ≤ e.1.2
  · have hcell := (valid_space_iff _ _ _ _).mp hv e.1 hcond.1
    exact ⟨hcell.1, hcell.2.1, hcond.2, hcell.2.2.1⟩
  · rw [if_neg hcond] at hs
    exact dget_isSome_bounds hB hs

/-- Claim C7: locking a piece from a `valid_space`-validated position on
an in-bounds board keeps every key of lockedCells inside the board, and
`clear_lines` preserves the bounds invariant; in particular no key ever
has a negative row. -/
theorem claim_C7 :
    (∀ (st : Tetris) (newPiece : Piece), InBounds st.locked →
      valid_space st.current.shape st.current.x st.current.y st.locked = true →
      InBounds (lock_piece st newPiece).locked) ∧
    (∀ l : Locked, InBounds l → InBounds (clear_lines (make_grid l) l).2) := by
  constructor
  · intro st newPiece hB hv
    rw [(lock_piece_fields st newPiece).2.2.2]
    exact clear_lines_inBounds _ _ (lockCells_inBounds st hB hv)
  · intro l hB
    exact clear_lines_inBounds _ _ hB

/-- Witness for claim C7: a concrete lock over the board `exL2` from a
validated position stays in bounds. -/
theorem claim_C7_witness :
    InBounds exSt7.locked ∧
    valid_space exSt7.current.shape exSt7.current.x exSt7.current.y exSt7.locked = true ∧
    InBounds (lock_piece exSt7 (Piece.init PieceType.S)).locked := by
  have h1 : InBounds exSt7.locked := by decide
  have h2 : valid_space exSt7.current.shape exSt7.current.x exSt7.current.y
      exSt7.locked = true := by decide
  exact ⟨h1, h2, claim_C7.1 exSt7 (Piece.init PieceType.S) h1 h2⟩

/-- Claim C6: a lock event that clears `c` lines adds
`score_table c × level` to the score (table {1: 40, 2: 100, 3: 300,
4: 1200, otherwise 0}), adds `c` to the line counter, and leaves
`level = ⌊lines/10⌋ + 1`, assuming the level invariant held before the
lock (the code skips the recomputation when `c = 0`). -/
theorem claim_C6 (st : Tetris) (newPiece : Piece)
    (hlev : st.level = st.lines / 10 + 1) :
    (lock_piece st newPiece).score = st.score +
      score_table (clear_lines (make_grid (lockCells st).2) (lockCells st).2).1 * st.level ∧
    (lock_piece st newPiece).lines = st.lines +
      (clear_lines (make_grid (lockCells st).2) (lockCells st).2).1 ∧
    (lock_piece st newPiece).level = (st.lines +
      (clear_lines (make_grid (lockCells st).2) (lockCells st).2).1) / 10 + 1 := by
  simp only [lock_piece]
  by_cases h : 0 < (clear_lines (make_grid (lockCells st).2) (lockCells st).2).1
  · rw [if_pos h]
    exact ⟨rfl, rfl, rfl⟩
  · rw [if_neg h]
    have h0 : (clear_lines (make_grid (lockCells st).2) (lockCells st).2).1 = 0 := by omega
    rw [h0]
    refine ⟨?_, by norm_num, ?_⟩
    · show st.score = st.score + score_table 0 * st.level
      norm_num [score_table]
    · show st.level = (st.lines + 0) / 10 + 1
      rw [hlev]
      norm_num

/-- Witness for claim C6: locking the vertical I piece of `exSt6`
completes four rows at level 3, adding 1200 × 3 = 3600 to the score and
4 to the line counter. -/
theorem claim_C6_witness :
    exSt6.level = exSt6.lines / 10 + 1 ∧
    (lock_piece exSt6 (Piece.init PieceType.S)).score = 3600 ∧
    (lock_piece exSt6 (Piece.init PieceType.S)).lines = 24 ∧
    (lock_piece exSt6 (Piece.init PieceType.S)).level = 3 := by
  have h := claim_C6 exSt6 (Piece.init PieceType.S) rfl
  refine ⟨rfl, ?_, ?_, ?_⟩
  · rw [h.1]
    decide
  · rw [h.2.1]
    decide
  · rw [h.2.2]
    decide

theorem lock_piece_counters (st : Tetris) (newPiece : Piece) :
    (lock_piece st newPiece).score = st.score +
      score_table (clear_lines (make_grid (lockCells st).2) (lockCells st).2).1 * st.level ∧
    (lock_piece st newPiece).lines = st.lines +
      (clear_lines (make_grid (lockCells st).2) (lockCells st).2).1 ∧
    (0 < (clear_lines (make_grid (lockCells st).2) (lockCells st).2).1 →
      (lock_piece st newPiece).level = (st.lines +
        (clear_lines (make_grid (lockCells st).2) (lockCells st).2).1) / 10 + 1) := by
  simp only [lock_piece]
  by_cases h : 0 < (clear_lines (make_grid (lockCells st).2) (lockCells st).2).1
  · rw [if_pos h]
    exact ⟨rfl, rfl, fun _ => rfl⟩
  · rw [if_neg h]
    have h0 : (clear_lines (make_grid (lockCells st).2) (lockCells st).2).1 = 0 := by omega
    rw [h0]
    refine ⟨?_, by norm_num, fun hc => absurd hc (lt_irrefl 0)⟩
    show st.score = st.score + score_table 0 * st.level
    norm_num [score_table]

/-- Counterexample for claim C1 as stated: locking the piece `exPieceI1`
(top cell at row −1) sets the game-over flag, yet the cell `(5, 0)` —
visited after the detection at `(5, −1)` — is still written into
lockedCells, and the next piece is still spawned. -/
theorem claim_C1_counterexample :
    (lock_piece exSt1 (Piece.init PieceType.S)).game_over = true ∧
    dget (lock_piece exSt1 (Piece.init PieceType.S)).locked (5, 0) = some (0, 240, 240) ∧
    (lock_piece exSt1 (Piece.init PieceType.S)).current = exSt1.next_piece :=
  ⟨by decide, by decide, by decide⟩

/-- Claim C1 (amended): when some occupied cell of the current piece has
row < 0, `lock_piece` sets the game-over flag but does not stop: every
occupied cell with row ≥ 0 is still written into lockedCells with the
piece's color, the line clearer is invoked on the written board,
score and lines are still updated by the reward table and the cleared
count, level is recomputed when lines clear, and the next piece is
spawned. -/
theorem claim_C1 (st : Tetris) (newPiece : Piece)
    (h : (shape_cells st.current.shape st.current.x st.current.y).any
      (fun c => decide (c.2 < 0)) = true) :
    (lock_piece st newPiece).game_over = true ∧
    (∀ c ∈ shape_cells st.current.shape st.current.x st.current.y, 0 ≤ c.2 →
      dget (lockCells st).2 c = some st.current.color) ∧
    (lock_piece st newPiece).locked
      = (clear_lines (make_grid (lockCells st).2) (lockCells st).2).2 ∧
    (lock_piece st newPiece).score = st.score +
      score_table (clear_lines (make_grid (lockCells st).2) (lockCells st).2).1 * st.level ∧
    (lock_piece st newPiece).lines = st.lines +
      (clear_lines (make_grid (lockCells st).2) (lockCells st).2).1 ∧
    (0 < (clear_lines (make_grid (lockCells st).2) (lockCells st).2).1 →
      (lock_piece st newPiece).level = (st.lines +
        (clear_lines (make_grid (lockCells st).2) (lockCells st).2).1) / 10 + 1) ∧
    (lock_piece st newPiece).current = st.next_piece ∧
    (lock_piece st newPiece).next_piece = newPiece := by
  have hf := lock_piece_fields st newPiece
  have hcnt := lock_piece_counters st newPiece
  refine ⟨?_, ?_, hf.2.2.2, hcnt.1, hcnt.2.1, hcnt.2.2, hf.1, hf.2.1⟩
  · rw [hf.2.2.1, lockCells_fst, h]
    simp
  · intro c hc hc2
    rw [lockCells_dget st c]
    rw [if_pos ⟨hc, hc2⟩]

/-- Witness for claim C1 (amended): the piece of `exSt1` has its top cell
above the board, and locking it sets the game-over flag while writing
the in-board cells. -/
theorem claim_C1_witness :
    ((shape_cells exSt1.current.shape exSt1.current.x exSt1.current.y).any
      (fun c => decide (c.2 < 0)) = true) ∧
    (lock_piece exSt1 (Piece.init PieceType.S)).game_over = true := by
  have h : (shape_cells exSt1.current.shape exSt1.current.x exSt1.current.y).any
      (fun c => decide (c.2 < 0)) = true := by decide
  exact ⟨h, (claim_C1 exSt1 (Piece.init PieceType.S) h).1⟩

/-! ### Rotation -/

theorem rotate_valid (q : Piece) (locked : Locked)
    (h : valid_space (q.rotations.getD ((q.rotation + 1) % q.rotations.length) [])
      q.x q.y locked = true) :
    q.rotate locked
      = ({ q with
             rotation := (q.rotation + 1) % q.rotations.length
             shape := q.rotations.getD ((q.rotation + 1) % q.rotations.length) [] }, true) := by
  simp only [Piece.rotate]
  rw [h]
  simp only [if_true]

/-- Claim C4: when the clockwise rotated state is invalid at the current
anchor and every wall kick also fails, `rotate` returns `false` and
leaves the piece unchanged; and, independently, the same for
`rotate_ccw` when the counter-clockwise rotated state and all its wall
kicks fail.  Each conclusion depends only on its own direction's
failure hypotheses. -/
theorem claim_C4 :
    (∀ (p : Piece) (locked : Locked),
      p.shape = p.rotations.getD p.rotation [] →
      valid_space (p.rotations.getD ((p.rotation + 1) % p.rotations.length) [])
        p.x p.y locked = false →
      (∀ dx ∈ KICKS,
        valid_space (p.rotations.getD ((p.rotation + 1) % p.rotations.length) [])
          (p.x + dx) p.y locked = false) →
      p.rotate locked = (p, false)) ∧
    (∀ (p : Piece) (locked : Locked),
      p.shape = p.rotations.getD p.rotation [] →
      valid_space (p.rotations.getD
          ((((p.rotation : Int) - 1).emod (p.rotations.length : Int)).toNat) [])
        p.x p.y locked = false →
      (∀ dx ∈ KICKS,
        valid_space (p.rotations.getD
            ((((p.rotation : Int) - 1).emod (p.rotations.length : Int)).toNat) [])
          (p.x + dx) p.y locked = false) →
      p.rotate_ccw locked = (p, false)) := by
  constructor
  · intro p locked hshape hcwa hcwk
    simp only [Piece.rotate]
    rw [hcwa]
    simp only [Bool.false_eq_true, if_false]
    rw [List.find?_eq_none.mpr (fun dx hdx => by rw [hcwk dx hdx]; simp)]
    rw [← hshape]
  · intro p locked hshape hccwa hccwk
    simp only [Piece.rotate_ccw]
    rw [hccwa]
    simp only [Bool.false_eq_true, if_false]
    rw [List.find?_eq_none.mpr (fun dx hdx => by rw [hccwk dx hdx]; simp)]
    rw [← hshape]

/-- Witness for claim C4: a T piece inside a fully occupied board cannot
rotate in either direction; both methods report failure and leave the
piece unchanged. -/
theorem claim_C4_witness :
    (exP4.shape = exP4.rotations.getD exP4.rotation []) ∧
    exP4.rotate fullLocked = (exP4, false) ∧ exP4.rotate_ccw fullLocked = (exP4, false) := by
  have h1 : exP4.shape = exP4.rotations.getD exP4.rotation [] := rfl
  have h2 : valid_space (exP4.rotations.getD ((exP4.rotation + 1) % exP4.rotations.length) [])
      exP4.x exP4.y fullLocked = false := by decide
  have h3 : ∀ dx ∈ KICKS,
      valid_space (exP4.rotations.getD ((exP4.rotation + 1) % exP4.rotations.length) [])
        (exP4.x + dx) exP4.y fullLocked = false := by decide
  have h4 : valid_space (exP4.rotations.getD
      ((((exP4.rotation : Int) - 1).emod (exP4.rotations.length : Int)).toNat) [])
      exP4.x exP4.y fullLocked = false := by decide
  have h5 : ∀ dx ∈ KICKS,
      valid_space (exP4.rotations.getD
          ((((exP4.rotation : Int) - 1).emod (exP4.rotations.length : Int)).toNat) [])
        (exP4.x + dx) exP4.y fullLocked = false := by decide
  exact ⟨h1, claim_C4.1 exP4 fullLocked h1 h2 h3, claim_C4.2 exP4 fullLocked h1 h4 h5⟩

/-- Claim C5: when the rotated state is invalid at the current anchor and
the wall-kick offsets −1, +1, −2, +2 are tried in order, `rotate` applies
the first offset that validates, shifting the anchor column by it,
keeping the new rotation index, and returning `true`. -/
theorem claim_C5 (p : Piece) (locked : Locked) (n : Nat) (hn : n < KICKS.length)
    (ha : valid_space (p.rotations.getD ((p.rotation + 1) % p.rotations.length) [])
      p.x p.y locked = false)
    (hvalid : valid_space (p.rotations.getD ((p.rotation + 1) % p.rotations.length) [])
      (p.x + KICKS.getD n 0) p.y locked = true)
    (hbefore : ∀ m, m < n →
      valid_space (p.rotations.getD ((p.rotation + 1) % p.rotations.length) [])
        (p.x + KICKS.getD m 0) p.y locked = false) :
    p.rotate locked
      = ({ p with
             rotation := (p.rotation + 1) % p.rotations.length
             shape := p.rotations.getD ((p.rotation + 1) % p.rotations.length) []
             x := p.x + KICKS.getD n 0 }, true) := by
  have hfind : KICKS.find?
      (fun dx => valid_space (p.rotations.getD ((p.rotation + 1) % p.rotations.length) [])
        (p.x + dx) p.y locked) = some (KICKS.getD n 0) := by
    have hn4 : n < 4 := by simpa [KICKS] using hn
    interval_cases n
    · simp [KICKS, List.find?] at hvalid ⊢
      simp [hvalid]
    · have h0 := hbefore 0 (by norm_num)
      simp [KICKS, List.find?] at h0 hvalid ⊢
      simp [h0, hvalid]
    · have h0 := hbefore 0 (by norm_num)
      have h1 := hbefore 1 (by norm_num)
      simp [KICKS, List.find?] at h0 h1 hvalid ⊢
      simp [h0, h1, hvalid]
    · have h0 := hbefore 0 (by norm_num)
      have h1 := hbefore 1 (by norm_num)
      have h2 := hbefore 2 (by norm_num)
      simp [KICKS, List.find?] at h0 h1 h2 hvalid ⊢
      simp [h0, h1, h2, hvalid]
  simp only [Piece.rotate]
  rw [ha]
  simp only [Bool.false_eq_true, if_false]
  rw [hfind]

/-- Witness for claim C5: a T piece against the right wall cannot rotate
in place but succeeds with the first wall kick −1, moving its anchor from
column 8 to column 7. -/
theorem claim_C5_witness :
    (valid_space (exP5.rotations.getD ((exP5.rotation + 1) % exP5.rotations.length) [])
      exP5.x exP5.y emptyLocked = false) ∧
    exP5.rotate emptyLocked
      = ({ exP5 with
             rotation := (exP5.rotation + 1) % exP5.rotations.length
             shape := exP5.rotations.getD ((exP5.rotation + 1) % exP5.rotations.length) []
             x := exP5.x + KICKS.getD 0 0 }, true) := by
  have ha : valid_space (exP5.rotations.getD ((exP5.rotation + 1) % exP5.rotations.length) [])
      exP5.x exP5.y emptyLocked = false := by decide
  have hv : valid_space (exP5.rotations.getD ((exP5.rotation + 1) % exP5.rotations.length) [])
      (exP5.x + KICKS.getD 0 0) exP5.y emptyLocked = true := by decide
  have hb : ∀ m, m < 0 →
      valid_space (exP5.rotations.getD ((exP5.rotation + 1) % exP5.rotations.length) [])
        (exP5.x + KICKS.getD m 0) exP5.y emptyLocked = false := by omega
  exact ⟨ha, claim_C5 exP5 emptyLocked 0 (by decide) ha hv hb⟩

theorem rotateN_rotation (p : Piece) (locked : Locked)
    (hlt : p.rotation < p.rotations.length)
    (hshape : p.shape = p.rotations.getD p.rotation [])
    (hvalid : ∀ i < p.rotations.length,
      valid_space (p.rotations.getD ((p.rotation + i + 1) % p.rotations.length) [])
        p.x p.y locked = true) :
    ∀ k, k ≤ p.rotations.length → rotateN locked k p
      = { p with
            rotation := (p.rotation + k) % p.rotations.length
            shape := p.rotations.getD ((p.rotation + k) % p.rotations.length) [] } := by
  intro k
  induction k with
  | zero =>
    intro _
    have h1 : (p.rotation + 0) % p.rotations.length = p.rotation := by
      rw [Nat.add_zero, Nat.mod_eq_of_lt hlt]
    show p = _
    rw [h1, ← hshape]
  | succ k ih =>
    intro hk
    show ((rotateN locked k p).rotate locked).1 = _
    rw [ih (by omega)]
    rw [rotate_valid _ locked ?_]
    · have hmod : ((p.rotation + k) % p.rotations.length + 1) % p.rotations.length
          = (p.rotation + k + 1) % p.rotations.length := Nat.mod_add_mod _ _ _
      show ({ p with
                rotation := ((p.rotation + k) % p.rotations.length + 1) % p.rotations.length
                shape := p.rotations.getD
                  (((p.rotation + k) % p.rotations.length + 1) % p.rotations.length) [] } : Piece)
        = _
      rw [hmod]
      rfl
    · show valid_space (p.rotations.getD
          (((p.rotation + k) % p.rotations.length + 1) % p.rotations.length) [])
        p.x p.y locked = true
      rw [Nat.mod_add_mod]
      exact hvalid k (by omega)

/-- Claim C8: for every well-formed piece, applying clockwise rotation
`N` times — `N` being the rotation-state count of the piece's type, which
is 1 for O, 2 for S, Z and I, and 4 for J, L and T — with every rotation
valid at the anchor (no wall kick), returns the piece to its original
rotation index, shape, and anchor. -/
theorem claim_C8 (p : Piece) (locked : Locked)
    (hrots : p.rotations = TETROMINOES p.type)
    (hlt : p.rotation < p.rotations.length)
    (hshape : p.shape = p.rotations.getD p.rotation [])
    (hvalid : ∀ i < p.rotations.length,
      valid_space (p.rotations.getD ((p.rotation + i + 1) % p.rotations.length) [])
        p.x p.y locked = true) :
    rotateN locked (TETROMINOES p.type).length p = p ∧
    (TETROMINOES PieceType.O).length = 1 ∧ (TETROMINOES PieceType.S).length = 2 ∧
    (TETROMINOES PieceType.Z).length = 2 ∧ (TETROMINOES PieceType.I).length = 2 ∧
    (TETROMINOES PieceType.J).length = 4 ∧ (TETROMINOES PieceType.L).length = 4 ∧
    (TETROMINOES PieceType.T).length = 4 := by
  refine ⟨?_, rfl, rfl, rfl, rfl, rfl, rfl, rfl⟩
  rw [← hrots]
  rw [rotateN_rotation p locked hlt hshape hvalid p.rotations.length le_rfl]
  have h1 : (p.rotation + p.rotations.length) % p.rotations.length = p.rotation := by
    rw [Nat.add_mod_right, Nat.mod_eq_of_lt hlt]
  rw [h1, ← hshape]

/-- Witness for claim C8: four clockwise rotations of a freshly spawned
T piece on the empty board return it to its initial state. -/
theorem claim_C8_witness :
    ((Piece.init PieceType.T).rotations = TETROMINOES (Piece.init PieceType.T).type) ∧
    (Piece.init PieceType.T).rotation < (Piece.init PieceType.T).rotations.length ∧
    rotateN emptyLocked (TETROMINOES (Piece.init PieceType.T).type).length
      (Piece.init PieceType.T) = Piece.init PieceType.T := by
  have h1 : (Piece.init PieceType.T).rotations = TETROMINOES (Piece.init PieceType.T).type := rfl
  have h2 : (Piece.init PieceType.T).rotation < (Piece.init PieceType.T).rotations.length := by
    decide
  have h3 : (Piece.init PieceType.T).shape
      = (Piece.init PieceType.T).rotations.getD (Piece.init PieceType.T).rotation [] := rfl
  have h4 : ∀ i < (Piece.init PieceType.T).rotations.length,
      valid_space ((Piece.init PieceType.T).rotations.getD
          (((Piece.init PieceType.T).rotation + i + 1)
            % (Piece.init PieceType.T).rotations.length) [])
        (Piece.init PieceType.T).x (Piece.init PieceType.T).y emptyLocked = true := by decide
  exact ⟨h1, h2, (claim_C8 (Piece.init PieceType.T) emptyLocked h1 h2 h3 h4).1⟩

end Tetris
